import Mathlib

/-!
Verification of the forum-replier ingestion-and-retrieval pipeline.

Texts are modelled as lists of characters (`Str`), matching Python strings
as sequences of code points.  Python whitespace stripping is modelled for
the ASCII whitespace characters, which covers every input considered here.
-/

namespace ForumReplier

abbrev Str := List Char

/-- The ASCII whitespace characters stripped by Python `str.strip()`. -/
def pyIsSpace (c : Char) : Bool :=
  c = ' ' || c = '\t' || c = '\n' || c = '\r' || c = Char.ofNat 11 || c = Char.ofNat 12

/-- Python `str.strip()`: drop leading and trailing whitespace. -/
def pyStrip (s : Str) : Str :=
  ((s.dropWhile pyIsSpace).reverse.dropWhile pyIsSpace).reverse

/-- Python `s.rstrip(c)` for a single character. -/
def rstripChar (c : Char) (s : Str) : Str :=
  (s.reverse.dropWhile (· = c)).reverse

/-- The blank-line separator used between paragraphs. -/
def nn : Str := ['\n', '\n']

/-- Python `text.split("\n\n")`: split on non-overlapping occurrences, left to right. -/
def splitPara : Str → List Str
  | [] => [[]]
  | '\n' :: '\n' :: rest => [] :: splitPara rest
  | c :: rest =>
    match splitPara rest with
    | [] => [[c]]
    | p :: ps => (c :: p) :: ps

/-- Python `text.split("\n")`. -/
def splitNl : Str → List Str
  | [] => [[]]
  | '\n' :: rest => [] :: splitNl rest
  | c :: rest =>
    match splitNl rest with
    | [] => [[c]]
    | p :: ps => (c :: p) :: ps

/-- Python `text.replace(". ", ".\n")`: left-to-right, non-overlapping. -/
def replDotSpace : Str → Str
  | [] => []
  | '.' :: ' ' :: rest => '.' :: '\n' :: replDotSpace rest
  | c :: rest => c :: replDotSpace rest

/-- `s.drop (s.length - k)`: the last `k` characters of `s`. -/
def takeLast (k : Nat) (s : Str) : Str := s.drop (s.length - k)

/-- Python negative slice `s[-k:]`.  For `k = 0` Python returns the whole
string (`s[-0:] = s[0:]`); for `k > 0` it returns the last `min k s.length`
characters. -/
def pyTakeNeg (k : Nat) (s : Str) : Str := if k = 0 then s else takeLast k s

/-- `TextChunker._split_large_text`, inner accumulate-and-flush loop over
the sentence list (`chunker.py` lines 67-82).  `cs` is `chunk_size`. -/
def splitLargeGo (cs : Nat) : List Str → Str → List Str
  | [], cur => if pyStrip cur ≠ [] then [pyStrip cur] else []
  | s :: rest, cur =>
    let s' := pyStrip s
    if s' = [] then splitLargeGo cs rest cur
    else if cs < cur.length + s'.length then
      (if pyStrip cur ≠ [] then [pyStrip cur] else []) ++ splitLargeGo cs rest s'
    else splitLargeGo cs rest (if cur = [] then s' else cur ++ ' ' :: s')

/-- `TextChunker._split_large_text` (`chunker.py` lines 62-82): split an
oversized paragraph on sentence boundaries (". " rewritten to a newline,
then split on newlines), accumulating without overlap. -/
def splitLargeText (cs : Nat) (text : Str) : List Str :=
  splitLargeGo cs (splitNl (replDotSpace text)) []

/-- `TextChunker.chunk_text`, main paragraph loop (`chunker.py` lines 35-60).
`cs` is `chunk_size`, `ov` is `chunk_overlap`, `cur` the running buffer. -/
def chunkGo (cs ov : Nat) : List Str → Str → List Str
  | [], cur => if pyStrip cur ≠ [] then [pyStrip cur] else []
  | p :: rest, cur =>
    let p' := pyStrip p
    if p' = [] then chunkGo cs ov rest cur
    else if cs < cur.length + p'.length then
      (if pyStrip cur ≠ [] then [pyStrip cur] else []) ++
      (if cs < p'.length then
        splitLargeText cs p' ++ chunkGo cs ov rest []
      else
        let ovl := if ov < cur.length then pyTakeNeg ov cur else []
        chunkGo cs ov rest (if ovl ≠ [] then ovl ++ nn ++ p' else p'))
    else chunkGo cs ov rest (if cur = [] then p' else cur ++ nn ++ p')

/-- Contents of the chunks yielded by `TextChunker.chunk_text`
(`chunker.py` lines 21-60). -/
def chunkText (cs ov : Nat) (text : Str) : List Str :=
  let t := pyStrip text
  if t = [] then [] else chunkGo cs ov (splitPara t) []

/-- A chunk of text for embedding (`chunker.py` `Chunk`).  The metadata type
is abstract; `chunk_text` copies the caller-supplied metadata onto every
emitted chunk. -/
structure Chunk (α : Type) where
  content : Str
  metadata : α
  deriving DecidableEq, Repr

/-- `TextChunker.chunk_text` with metadata attached. -/
def chunk_text (cs ov : Nat) (text : Str) (m : α) : List (Chunk α) :=
  (chunkText cs ov text).map (fun c => ⟨c, m⟩)

/-- The sentences of a text, per the chunker's notion: paragraphs are the
blank-line-separated segments of the stripped text, each stripped; a
paragraph's sentences are obtained by rewriting ". " to a newline and
splitting on newlines, each stripped. -/
def sentencesOf (text : Str) : List Str :=
  ((splitPara (pyStrip text)).map pyStrip).flatMap
    (fun p => (splitNl (replDotSpace p)).map pyStrip)

/-- Largest sentence length occurring in a text. -/
def maxSentenceLen (text : Str) : Nat :=
  ((sentencesOf text).map List.length).foldr max 0

/-- The paragraph buffer of `chunk_text` as it grows when no flush happens:
strip each paragraph, drop empties, and join onto the running buffer with a
blank-line separator.  Mirrors the `else` branch of the main loop. -/
def accumParas : List Str → Str → Str
  | [], cur => cur
  | p :: rest, cur =>
    let p' := pyStrip p
    accumParas rest (if p' = [] then cur else if cur = [] then p' else cur ++ nn ++ p')

/-- Rejoin segments with the blank-line separator (the inverse of
`splitPara`). -/
def joinPara : List Str → Str
  | [] => []
  | [p] => p
  | p :: q :: rest => p ++ nn ++ joinPara (q :: rest)

/-- Counterexample input for claim C7: shorter than `chunk_size`, not
whitespace-only, but with whitespace next to a paragraph boundary. -/
def ex7 : Str := "a \n\nb".toList

/-- Counterexample input: two 900-character paragraphs (no ". " anywhere),
whose second chunk is seeded with the 200-character overlap, a blank-line
separator and the 900-character paragraph — 1102 characters. -/
def ex1A : Str := List.replicate 900 'a'

/-- Second paragraph of the counterexample input. -/
def ex1B : Str := List.replicate 900 'b'

/-- The counterexample input itself. -/
def ex1 : Str := ex1A ++ nn ++ ex1B

/-! ### Crawler (`crawler.py`)

URLs are character lists.  `urlparse` is modelled for the absolute http(s)
URLs the crawler handles; HTML parsing (title, content and link extraction)
is delegated to a site oracle that returns each page's extracted fields, and
`urljoin` is the identity on the absolute link URLs the oracle supplies.  A
URL mapped to `none` by the oracle models a fetch error (network failure or
HTTP error status). -/

/-- Parsed network location and path of a URL, as used by
`DocsCrawler`.  Fragment (after the first `#`) and query (after the first
`?`) are removed; the netloc is the segment between `://` and the next `/`
and the path is the remainder; a string without `://` has empty netloc and
is all path. -/
structure UrlParts where
  netloc : Str
  path : Str
  deriving DecidableEq, Repr

/-- The text after the first `://`, when present. -/
def afterSchemeSep : Str → Option Str
  | [] => none
  | ':' :: '/' :: '/' :: rest => some rest
  | _ :: rest => afterSchemeSep rest

/-- `urllib.parse.urlparse`, restricted to the netloc and path fields. -/
def urlparse (url : Str) : UrlParts :=
  let noQuery := (url.takeWhile (· ≠ '#')).takeWhile (· ≠ '?')
  match afterSchemeSep noQuery with
  | none => ⟨[], noQuery⟩
  | some rest => ⟨rest.takeWhile (· ≠ '/'), rest.dropWhile (· ≠ '/')⟩

/-- `parsed.path.rstrip("/") or "/"` (`crawler.py` lines 32 and 112). -/
def normPath (p : Str) : Str :=
  let s := rstripChar '/' p
  if s = [] then ['/'] else s

/-- Python `str.startswith`: first argument is the candidate prefix. -/
def strStartsWith : Str → Str → Bool
  | [], _ => true
  | _ :: _, [] => false
  | a :: as, b :: bs => a = b && strStartsWith as bs

/-- Python `str.endswith`: first argument is the candidate suffix. -/
def strEndsWith (suf s : Str) : Bool := strStartsWith suf.reverse s.reverse

/-- The blocked asset extensions of `DocsCrawler._is_valid_url`
(`crawler.py` line 117). -/
def skipExtensions : List Str :=
  [".pdf".toList, ".zip".toList, ".tar".toList, ".gz".toList, ".png".toList,
   ".jpg".toList, ".gif".toList, ".svg".toList, ".css".toList, ".js".toList]

/-- The `base_domain` stored by `DocsCrawler.__init__` (the base URL is
first stripped of trailing slashes). -/
def crawlerBaseDomain (baseUrl : Str) : Str :=
  (urlparse (rstripChar '/' baseUrl)).netloc

/-- The `base_path_prefix` stored by `DocsCrawler.__init__`. -/
def crawlerBasePrefix (baseUrl : Str) : Str :=
  normPath (urlparse (rstripChar '/' baseUrl)).path

/-- `DocsCrawler._is_valid_url` (`crawler.py` lines 102-124): same domain,
path within the base path prefix, and no blocked extension. -/
def isValidUrl (baseDomain basePrefix : Str) (url : Str) : Bool :=
  let parsed := urlparse url
  if parsed.netloc ≠ baseDomain then false
  else
    let urlPath := normPath parsed.path
    if ¬ strStartsWith basePrefix urlPath then false
    else if skipExtensions.any (fun e => strEndsWith e (urlPath.map Char.toLower)) then false
    else true

/-- A page as seen through the modelled HTML extraction: whether the
response is HTML, the extracted title and content, and the outbound link
hrefs already resolved to absolute URLs. -/
structure SitePage where
  isHtml : Bool
  title : Str
  content : Str
  links : List Str
  deriving Repr

/-- A crawled documentation page (`crawler.py` `CrawledPage`). -/
structure CrawledPage where
  url : Str
  title : Str
  content : Str
  deriving DecidableEq, Repr

/-- `DocsCrawler._extract_links` (`crawler.py` lines 158-178) applied to a
page's hrefs: skip empty and special-scheme links, strip the fragment and
trailing slashes, and keep in-scope links not yet visited. -/
def extractLinks (bd bp : Str) (visited : List Str) (hrefs : List Str) : List Str :=
  hrefs.filterMap fun href =>
    if href = [] || strStartsWith "#".toList href || strStartsWith "mailto:".toList href
        || strStartsWith "javascript:".toList href || strStartsWith "tel:".toList href then
      none
    else
      let a := rstripChar '/' (href.takeWhile (· ≠ '#'))
      if isValidUrl bd bp a ∧ a ∉ visited then some a else none

/-- `DocsCrawler._crawl_recursive` (`crawler.py` lines 50-100).  `fuel` is
`max_depth + 1 - depth`, so the entry guard `depth > max_depth` is
`fuel = 0`.  Returns the yielded pages and the visited set, modelled as a
duplicate-free list.  A per-URL fetch exception (oracle `none`) is caught
and ends only that branch, after the URL was added to the visited set,
exactly as in the source. -/
def crawlRec (site : Str → Option SitePage) (maxPages : Nat) (bd bp : Str) :
    Nat → Str → List Str → List CrawledPage × List Str
  | 0, _, vis => ([], vis)
  | fuel + 1, url0, vis =>
    if maxPages ≤ vis.length then ([], vis)
    else
      let url := rstripChar '/' (url0.takeWhile (· ≠ '#'))
      if url ∈ vis then ([], vis)
      else if ¬ isValidUrl bd bp url then ([], vis)
      else
        let vis1 := url :: vis
        match site url with
        | none => ([], vis1)
        | some pg =>
          if ¬ pg.isHtml then ([], vis1)
          else
            let yielded :=
              if pyStrip pg.content ≠ [] then [CrawledPage.mk url pg.title pg.content] else []
            let r := (extractLinks bd bp vis1 pg.links).foldl
              (fun acc link =>
                let r2 := crawlRec site maxPages bd bp fuel link acc.2
                (acc.1 ++ r2.1, r2.2))
              (([] : List CrawledPage), vis1)
            (yielded ++ r.1, r.2)

/-- `DocsCrawler.crawl` (`crawler.py` lines 41-48): start from the stored
(trailing-slash-stripped) base URL at depth 0, with an empty visited set. -/
def crawl (site : Str → Option SitePage) (maxPages maxDepth : Nat) (baseUrl : Str) :
    List CrawledPage × List Str :=
  crawlRec site maxPages (crawlerBaseDomain baseUrl) (crawlerBasePrefix baseUrl)
    (maxDepth + 1) (rstripChar '/' baseUrl) []

/-- A site page for the concrete crawl-termination example. -/
def exPage (next : List Str) : SitePage :=
  ⟨true, "t".toList, "c".toList, next⟩

/-- Base URL of the concrete crawl-termination example. -/
def exBase : Str := "http://e.com/d".toList

/-- A ten-page in-scope site: the base page and a chain of nine more. -/
def exSite (u : Str) : Option SitePage :=
  if u = "http://e.com/d".toList then some (exPage ["http://e.com/d/1".toList])
  else if u = "http://e.com/d/1".toList then some (exPage ["http://e.com/d/2".toList])
  else if u = "http://e.com/d/2".toList then some (exPage ["http://e.com/d/3".toList])
  else if u = "http://e.com/d/3".toList then some (exPage ["http://e.com/d/4".toList])
  else if u = "http://e.com/d/4".toList then some (exPage ["http://e.com/d/5".toList])
  else if u = "http://e.com/d/5".toList then some (exPage ["http://e.com/d/6".toList])
  else if u = "http://e.com/d/6".toList then some (exPage ["http://e.com/d/7".toList])
  else if u = "http://e.com/d/7".toList then some (exPage ["http://e.com/d/8".toList])
  else if u = "http://e.com/d/8".toList then some (exPage ["http://e.com/d/9".toList])
  else if u = "http://e.com/d/9".toList then some (exPage [])
  else none

/-! ### Retrieval pipeline (`vector_store.py`, `pipeline.py`)

Scores and distances are rationals; the embedding model, the similarity
index and the answer-generation capability are oracles.  `answer_question`
additionally records which capabilities it invoked. -/

/-- A single-quote character, used in the fixed response strings. -/
def apo : Char := Char.ofNat 39

/-- Raw outcome of `collection.query` for one query vector: parallel lists
of documents, metadatas and distances. -/
structure RawResults where
  documents : List Str
  metadatas : List (List (Str × Str))
  distances : List ℚ

/-- A scored retrieval result (`vector_store.py` lines 65-72). -/
structure QueryResult where
  content : Str
  metadata : List (Str × Str)
  score : ℚ
  deriving DecidableEq

/-- `VectorStore.query` (`vector_store.py` lines 52-76): any exception from
the underlying similarity-index query (oracle value `none`) is caught and
becomes an empty result list; otherwise each (document, metadata, distance)
triple becomes a result scored `1 - distance`. -/
def vectorStoreQuery (raw : Option RawResults) : List QueryResult :=
  match raw with
  | none => []
  | some r =>
    (r.documents.zip (r.metadatas.zip r.distances)).map
      (fun x => ⟨x.1, x.2.1, 1 - x.2.2⟩)

/-- Python `metadata.get(k)`. -/
def dictGet (m : List (Str × Str)) (k : Str) : Option Str :=
  (m.find? (fun kv => kv.1 = k)).map (fun kv => kv.2)

/-- Python truthiness of an optional string: `None` and `""` are falsy. -/
def optTruthy : Option Str → Bool
  | none => false
  | some s => s ≠ []

/-- Python `a or b` on optional strings. -/
def pyOr (a b : Option Str) : Option Str := if optTruthy a then a else b

/-- The capability calls `answer_question` can make. -/
inductive PipeEvent
  | countCall
  | embedQueryCall
  | storeQueryCall
  | generateCall
  deriving DecidableEq, Repr

/-- The oracles behind `answer_question`: the channel partition's document
count and raw query outcome, the query-embedding capability, and
`generate_answer` (whose `Except.error` models a raised exception). -/
structure QueryOracle where
  count : Nat
  embedQuery : Str → List ℚ
  storeQuery : List ℚ → Option RawResults
  generate : Str → Str → Except Str (Str × Str)

/-- The result dict of `answer_question`. -/
structure AnswerRes where
  answer : Str
  sources : List Str
  confidence : Str
  deriving DecidableEq

/-- Fixed response when the channel has no indexed content. -/
def notIndexedMsg : Str :=
  "I don".toList ++ [apo] ++
    "t have any knowledge indexed yet. Please configure my knowledge sources first!".toList

/-- Fixed response when retrieval returns no results. -/
def noResultsMsg : Str :=
  "I couldn".toList ++ [apo] ++ "t find relevant information to answer your question.".toList

/-- Fixed response when no retrieved chunk passes the relevance floor. -/
def notRelevantMsg : Str :=
  "I found some content but it doesn".toList ++ [apo] ++
    "t seem relevant to your question. Could you rephrase?".toList

/-- The visible separator between context chunks. -/
def ctxSep : Str := "\n\n---\n\n".toList

/-- Python `sep.join(parts)`. -/
def joinSep (sep : Str) : List Str → Str
  | [] => []
  | [p] => p
  | p :: q :: rest => p ++ sep ++ joinSep sep (q :: rest)

/-- The context/source accumulation loop of `answer_question`
(`pipeline.py` lines 52-66): keep chunks scoring at least 0.3; collect each
truthy source identifier (url, else file_path) once, in first-seen order. -/
def collectResults (results : List QueryResult) : List Str × List Str :=
  results.foldl
    (fun acc res =>
      if res.score < (3 : ℚ) / 10 then acc
      else
        let ctx := acc.1 ++ [res.content]
        let src := pyOr (dictGet res.metadata "url".toList)
          (dictGet res.metadata "file_path".toList)
        match src with
        | some s => if s ≠ [] ∧ s ∉ acc.2 then (ctx, acc.2 ++ [s]) else (ctx, acc.2)
        | none => (ctx, acc.2))
    ([], [])

/-- `answer_question` (`pipeline.py` lines 13-91), paired with the trace of
capability calls it makes.  The `RuntimeError` re-raised on generation
failure is the `Except.error` outcome. -/
def answer_question (o : QueryOracle) (question : Str) :
    Except Str AnswerRes × List PipeEvent :=
  if o.count = 0 then
    (Except.ok ⟨notIndexedMsg, [], "low".toList⟩, [PipeEvent.countCall])
  else
    let v := o.embedQuery question
    let results := vectorStoreQuery (o.storeQuery v)
    let log := [PipeEvent.countCall, PipeEvent.embedQueryCall, PipeEvent.storeQueryCall]
    if results = [] then
      (Except.ok ⟨noResultsMsg, [], "low".toList⟩, log)
    else
      let cr := collectResults results
      if cr.1 = [] then
        (Except.ok ⟨notRelevantMsg, [], "low".toList⟩, log)
      else
        let context := joinSep ctxSep cr.1
        match o.generate question context with
        | Except.ok ac =>
          (Except.ok ⟨ac.1, cr.2.take 3, ac.2⟩, log ++ [PipeEvent.generateCall])
        | Except.error e =>
          (Except.error ("Failed to generate answer: ".toList ++ e),
            log ++ [PipeEvent.generateCall])

/-- A concrete oracle over an empty channel partition. -/
def exOracleEmpty : QueryOracle :=
  ⟨0, fun _ => [], fun _ => none, fun _ _ => Except.ok ("x".toList, "high".toList)⟩

/-- A concrete oracle over a non-empty partition whose similarity-index
query always raises. -/
def exOracleErr : QueryOracle :=
  ⟨1, fun _ => [], fun _ => none, fun _ _ => Except.ok ("x".toList, "high".toList)⟩

/-! ### GitHub repository fetcher (`github.py`)

The code-hosting API is an oracle from paths to `get_contents` outcomes;
base64 decoding is external, so the oracle supplies each entry's decoded
text (`none` modelling a decode failure). -/

/-- A file from a GitHub repository (`github.py` `GitHubFile`). -/
structure GitHubFile where
  path : Str
  content : Str
  url : Str
  file_type : Str
  deriving DecidableEq, Repr

/-- A repository tree entry as the API reports it: type (`"file"` or
`"dir"` or other), path, reported size in bytes, decoded content and html
url. -/
structure RepoEntry where
  typ : Str
  path : Str
  size : Nat
  decoded : Option Str
  html_url : Str
  deriving DecidableEq, Repr

/-- Outcome of `repo.get_contents`: `none` models a raised
`GithubException`; otherwise a single file or a directory listing. -/
def RepoOracle := Str → Option (RepoEntry ⊕ List RepoEntry)

/-- `GitHubFetcher.PRIORITY_FILES`. -/
def PRIORITY_FILES : List Str :=
  ["README.md".toList, "readme.md".toList, "README.rst".toList,
   "CONTRIBUTING.md".toList, "CHANGELOG.md".toList, "ARCHITECTURE.md".toList,
   "docs/README.md".toList, "doc/README.md".toList]

/-- `GitHubFetcher.DOC_DIRS`. -/
def DOC_DIRS : List Str :=
  ["docs".toList, "doc".toList, "documentation".toList, "examples".toList,
   "samples".toList]

/-- `GitHubFetcher.OPERATOR_DIRS`. -/
def OPERATOR_DIRS : List Str :=
  ["api".toList, "apis".toList, "config/crd".toList, "config/rbac".toList,
   "config/samples".toList, "bundle/manifests".toList, "charts".toList,
   "deploy".toList, "hack".toList]

/-- The extension allow-list of `_process_file` (`github.py` lines 132-136). -/
def relevantExtensions : List Str :=
  [".md".toList, ".rst".toList, ".txt".toList, ".adoc".toList,
   ".go".toList, ".py".toList, ".yaml".toList, ".yml".toList, ".json".toList,
   ".sh".toList, ".bash".toList]

/-- Python substring containment (`needle in haystack`). -/
def strContains (needle : Str) : Str → Bool
  | [] => strStartsWith needle []
  | c :: rest => strStartsWith needle (c :: rest) || strContains needle rest

/-- `GitHubFetcher._get_file_type` (`github.py` lines 159-174):
directory-name substring classification, evaluated top to bottom. -/
def getFileType (dirPath : Str) : Str :=
  if strContains "api".toList dirPath then "api_types".toList
  else if strContains "crd".toList dirPath then "crd".toList
  else if strContains "rbac".toList dirPath then "rbac".toList
  else if strContains "sample".toList dirPath then "sample".toList
  else if strContains "chart".toList dirPath || strContains "helm".toList dirPath then
    "helm_chart".toList
  else if strContains "bundle".toList dirPath then "olm_bundle".toList
  else "code".toList

/-- The extension of a path: a dot followed by the text after the last dot
when the path contains one, else empty (`github.py` line 138). -/
def extOf (path : Str) : Str :=
  if '.' ∈ path then '.' :: (path.reverse.takeWhile (· ≠ '.')).reverse else []

/-- `GitHubFetcher._process_file` (`github.py` lines 125-157): skip files
whose reported size exceeds 500000 bytes, filter by the lower-cased
extension allow-list (unless the path is a priority file), then decode; a
decode failure is reported and skipped.  On success the fetched count grows
by one and the file is yielded. -/
def processFile (e : RepoEntry) (ftype : Str) (count : Nat) : List GitHubFile × Nat :=
  if 500000 < e.size then ([], count)
  else if ¬ relevantExtensions.contains ((extOf e.path).map Char.toLower)
      ∧ e.path ∉ PRIORITY_FILES then ([], count)
  else
    match e.decoded with
    | none => ([], count)
    | some c => ([⟨e.path, c, e.html_url, ftype⟩], count + 1)

/-- `GitHubFetcher._fetch_directory` (`github.py` lines 103-123).  `fuel`
is `5 - depth`, so the entry guard `depth > 4` is `fuel = 0`.  A listing
error (oracle `none`) means the directory is absent.  Python's `break` on a
full budget is modelled by a per-item guard: the fetched count never
decreases, so skipping every remaining item is the same as breaking. -/
def fetchDir (repo : RepoOracle) (maxFiles : Nat) :
    Nat → Str → Str → Nat → List GitHubFile × Nat
  | 0, _, _, count => ([], count)
  | fuel + 1, path, ftype, count =>
    if maxFiles ≤ count then ([], count)
    else
      match repo path with
      | none => ([], count)
      | some res =>
        let contents := match res with
          | Sum.inl e => [e]
          | Sum.inr l => l
        contents.foldl
          (fun acc item =>
            if maxFiles ≤ acc.2 then acc
            else if item.typ = "dir".toList then
              let r := fetchDir repo maxFiles fuel item.path ftype acc.2
              (acc.1 ++ r.1, r.2)
            else if item.typ = "file".toList then
              let r := processFile item ftype acc.2
              (acc.1 ++ r.1, r.2)
            else acc)
          ([], count)

/-- `GitHubFetcher.fetch` (`github.py` lines 68-101): priority files, then
operator directories, then documentation directories, each guarded by the
file budget.  `repoOk = false` models `get_repo` raising, which aborts the
whole fetch with nothing yielded. -/
def ghFetch (repo : RepoOracle) (maxFiles : Nat) (repoOk : Bool) : List GitHubFile × Nat :=
  if ¬ repoOk then ([], 0)
  else
    let phase1 := PRIORITY_FILES.foldl
      (fun acc fp =>
        if maxFiles ≤ acc.2 then acc
        else match repo fp with
          | none => acc
          | some (Sum.inr _) => acc
          | some (Sum.inl e) =>
            let r := processFile e "readme".toList acc.2
            (acc.1 ++ r.1, r.2))
      ([], 0)
    let phase2 := OPERATOR_DIRS.foldl
      (fun acc dir =>
        if maxFiles ≤ acc.2 then acc
        else
          let r := fetchDir repo maxFiles 5 dir (getFileType dir) acc.2
          (acc.1 ++ r.1, r.2))
      phase1
    DOC_DIRS.foldl
      (fun acc dir =>
        if maxFiles ≤ acc.2 then acc
        else
          let r := fetchDir repo maxFiles 5 dir "docs".toList acc.2
          (acc.1 ++ r.1, r.2))
      phase2

/-- A tree entry whose reported size exceeds the 500 KB ceiling. -/
def bigEntry : RepoEntry :=
  ⟨"file".toList, "a.md".toList, 500001, some "x".toList, "u".toList⟩

/-! ### Indexing orchestration (`tasks.py`)

The relational session is modelled by its committed record state:
`commit` makes the in-memory record the committed one, `rollback` restores
the in-memory record from the committed one, and each fallible step of the
run is scripted as `none` (succeeds) or `some e` (raises with message
`e`). -/

/-- `SourceStatus` (`models/source.py`). -/
inductive SourceStatus
  | pending
  | indexing
  | indexed
  | failed
  deriving DecidableEq, Repr

/-- The columns of a `KnowledgeSource` record that
`_index_channel_sources` touches, in their committed state. -/
structure SourceRec where
  status : SourceStatus
  error_message : Option Str
  last_indexed_at : Option Nat
  deriving DecidableEq, Repr

/-- A freshly configured pending source. -/
def pendingRec : SourceRec := ⟨SourceStatus.pending, none, none⟩

/-- Outcome script for one source: each fallible step of
`_index_channel_sources` (`tasks.py` lines 55-94) either succeeds (`none`)
or raises with a message.  `work` covers the whole fetch / chunk / embed /
store pipeline inside the `try`. -/
structure SourceRun where
  commitIndexing : Option Str
  work : Option Str
  commitIndexed : Option Str
  refresh : Option Str
  commitFailed : Option Str
  deriving DecidableEq, Repr

/-- The failure-recording path (`tasks.py` lines 84-94): after the session
rolled back to the last committed state, refresh the record, mark it
`FAILED` with the exception message truncated to 500 characters, and
commit; if the refresh or this commit itself raises, roll back and give up,
leaving the record at its last committed state. -/
def recordFailure (db : SourceRec) (e : Str) (r : SourceRun) : SourceRec :=
  match r.refresh with
  | some _ => db
  | none =>
    match r.commitFailed with
    | some _ => db
    | none => { db with status := SourceStatus.failed, error_message := some (e.take 500) }

/-- The committed record after `_index_channel_sources` processes one
source (`tasks.py` lines 55-94), starting from its current committed
state; `now` is the success timestamp. -/
def processSource (now : Nat) (r : SourceRun) (rec0 : SourceRec) : SourceRec :=
  match r.commitIndexing with
  | some e => recordFailure rec0 e r
  | none =>
    let db1 := { rec0 with status := SourceStatus.indexing }
    match r.work with
    | some e => recordFailure db1 e r
    | none =>
      match r.commitIndexed with
      | some e => recordFailure db1 e r
      | none => { db1 with status := SourceStatus.indexed, last_indexed_at := some now }

/-- A completion notification (`tasks.py` lines 99-106): success-only
phrasing carries the indexed count, mixed phrasing both counts. -/
inductive Notification
  | ready (channel : Str) (indexed : Nat)
  | mixedDone (channel : Str) (indexed failed : Nat)
  deriving DecidableEq, Repr

/-- `_index_channel_sources` over a channel's pending sources: process each
source sequentially and independently, then count the channel's `INDEXED`
and `FAILED` sources and emit the single completion notification (none when
the channel has no chat channel id). -/
def indexChannelRun (now : Nat) (slackCh : Option Str) (runs : List SourceRun) :
    List SourceRec × List Notification :=
  let recs := runs.map (fun r => processSource now r pendingRec)
  let indexed := (recs.filter (fun s => s.status = SourceStatus.indexed)).length
  let failed := (recs.filter (fun s => s.status = SourceStatus.failed)).length
  let notes := match slackCh with
    | none => []
    | some ch =>
      if failed = 0 then [Notification.ready ch indexed]
      else [Notification.mixedDone ch indexed failed]
  (recs, notes)

/-- A source run in which every step succeeds. -/
def okRun : SourceRun := ⟨none, none, none, none, none⟩

/-! ## Theorems -/

example : splitPara "a\n\nb".toList = ["a".toList, "b".toList] := by decide
example : splitPara "a\n\n\nb".toList = ["a".toList, "\nb".toList] := by decide
example : pyStrip "  a b\n".toList = "a b".toList := by decide
example : replDotSpace "x. y".toList = "x.\ny".toList := by decide
example : chunkText 1000 200 "hello\n\nworld".toList = ["hello\n\nworld".toList] := by decide
example : chunkText 5 2 "aaaa\n\nbbbb".toList =
    ["aaaa".toList, "aa\n\nbbbb".toList] := by decide

/-! ### Length bounds for the chunker -/

theorem length_dropWhile_le (p : Char → Bool) (l : Str) :
    (l.dropWhile p).length ≤ l.length := by
  induction l with
  | nil => simp
  | cons a l ih =>
    by_cases h : p a
    · simp only [List.dropWhile_cons, h, if_true, List.length_cons]
      omega
    · simp [List.dropWhile_cons, h]

theorem pyStrip_length_le (s : Str) : (pyStrip s).length ≤ s.length := by
  unfold pyStrip
  simp only [List.length_reverse]
  calc ((s.dropWhile pyIsSpace).reverse.dropWhile pyIsSpace).length
      ≤ (s.dropWhile pyIsSpace).reverse.length := length_dropWhile_le _ _
    _ = (s.dropWhile pyIsSpace).length := List.length_reverse _
    _ ≤ s.length := length_dropWhile_le _ _

theorem le_foldr_max {a : Nat} {l : List Nat} (h : a ∈ l) : a ≤ l.foldr max 0 := by
  induction l with
  | nil => cases h
  | cons b l ih =>
    rcases List.mem_cons.mp h with rfl | h'
    · exact le_max_left _ _
    · exact le_trans (ih h') (le_max_right _ _)

theorem takeLast_length_of_le {k : Nat} {s : Str} (h : k ≤ s.length) :
    (takeLast k s).length = k := by
  simp [takeLast]
  omega

/-- Emitted-chunk bound for the sentence-level accumulate-and-flush loop:
if every sentence strips to at most `B` characters and the buffer is within
the bound, every emitted chunk has at most `max (cs + 1) B` characters. -/
theorem splitLargeGo_bound (cs B : Nat) (sents : List Str) :
    ∀ cur : Str,
      (∀ s ∈ sents, (pyStrip s).length ≤ B) →
      cur.length ≤ max (cs + 1) B →
      ∀ c ∈ splitLargeGo cs sents cur, c.length ≤ max (cs + 1) B := by
  induction sents with
  | nil =>
    intro cur _ hcur c hc
    simp only [splitLargeGo] at hc
    split at hc
    · rcases List.mem_singleton.mp hc with rfl
      exact le_trans (pyStrip_length_le cur) hcur
    · cases hc
  | cons s rest ih =>
    intro cur hs hcur c hc
    have hsB : (pyStrip s).length ≤ B := hs s (List.mem_cons_self _ _)
    have hrest : ∀ t ∈ rest, (pyStrip t).length ≤ B :=
      fun t ht => hs t (List.mem_cons_of_mem _ ht)
    simp only [splitLargeGo] at hc
    split at hc
    · exact ih cur hrest hcur c hc
    · rename_i hne
      split at hc
      · rcases List.mem_append.mp hc with hc1 | hc2
        · split at hc1
          · rcases List.mem_singleton.mp hc1 with rfl
            exact le_trans (pyStrip_length_le cur) hcur
          · cases hc1
        · exact ih (pyStrip s) hrest (le_trans hsB (le_max_right _ _)) c hc2
      · rename_i hfit
        refine ih _ hrest ?_ c hc
        split
        · rename_i hcurnil
          exact le_trans hsB (le_max_right _ _)
        · simp only [List.length_append, List.length_cons]
          omega

/-- Emitted-chunk bound for `_split_large_text`. -/
theorem splitLargeText_bound (cs B : Nat) (text : Str)
    (h : ∀ s ∈ splitNl (replDotSpace text), (pyStrip s).length ≤ B) :
    ∀ c ∈ splitLargeText cs text, c.length ≤ max (cs + 1) B :=
  splitLargeGo_bound cs B _ [] h (Nat.zero_le _)

/-- Emitted-chunk bound for the main paragraph loop of `chunk_text`: with a
positive `chunk_overlap`, every emitted chunk is bounded by
`max (cs + ov + 2) B` where `B` bounds the stripped sentences of all
paragraphs. -/
theorem chunkGo_bound (cs ov B : Nat) (hov : 1 ≤ ov) (paras : List Str) :
    ∀ cur : Str,
      (∀ p ∈ paras, ∀ s ∈ splitNl (replDotSpace (pyStrip p)), (pyStrip s).length ≤ B) →
      cur.length ≤ max (cs + ov + 2) B →
      ∀ c ∈ chunkGo cs ov paras cur, c.length ≤ max (cs + ov + 2) B := by
  have hmono : max (cs + 1) B ≤ max (cs + ov + 2) B := by omega
  induction paras with
  | nil =>
    intro cur _ hcur c hc
    simp only [chunkGo] at hc
    split at hc
    · rcases List.mem_singleton.mp hc with rfl
      exact le_trans (pyStrip_length_le cur) hcur
    · cases hc
  | cons p rest ih =>
    intro cur hs hcur c hc
    have hpB : ∀ s ∈ splitNl (replDotSpace (pyStrip p)), (pyStrip s).length ≤ B :=
      hs p (List.mem_cons_self _ _)
    have hrest : ∀ q ∈ rest, ∀ s ∈ splitNl (replDotSpace (pyStrip q)), (pyStrip s).length ≤ B :=
      fun q hq => hs q (List.mem_cons_of_mem _ hq)
    simp only [chunkGo] at hc
    split at hc
    · exact ih cur hrest hcur c hc
    · rename_i hpne
      split at hc
      · -- flush branch
        rcases List.mem_append.mp hc with hc1 | hc2
        · split at hc1
          · rcases List.mem_singleton.mp hc1 with rfl
            exact le_trans (pyStrip_length_le cur) hcur
          · cases hc1
        · split at hc2
          · -- oversized paragraph: sentence split
            rcases List.mem_append.mp hc2 with hc3 | hc4
            · exact le_trans (splitLargeText_bound cs B _ hpB c hc3) hmono
            · exact ih [] hrest (Nat.zero_le _) c hc4
          · -- overlap-seeded new buffer
            rename_i hbig hsmall
            refine ih _ hrest ?_ c hc2
            by_cases hlong : ov < cur.length
            · have hlen : (pyTakeNeg ov cur).length = ov := by
                unfold pyTakeNeg takeLast
                rw [if_neg (by omega : ¬ ov = 0)]
                simp
                omega
              have hne2 : pyTakeNeg ov cur ≠ [] := by
                intro h0
                rw [h0] at hlen
                simp at hlen
                omega
              rw [if_pos hlong, if_pos hne2]
              simp only [List.length_append, nn, List.length_cons, List.length_nil]
              omega
            · rw [if_neg hlong, if_neg (by simp)]
              omega
      · -- append branch
        rename_i hfit
        refine ih _ hrest ?_ c hc
        split
        · omega
        · simp only [List.length_append, nn, List.length_cons, List.length_nil]
          omega

set_option maxRecDepth 100000 in
/-- Counterexample to claim C1 as stated: for the input `ex1` — two
900-character paragraphs, every sentence of which has 900 ≤ 1000
characters — `chunk_text` with the default `chunk_size` 1000 and
`chunk_overlap` 200 emits a chunk of 1102 > 1000 characters, because the
overlap-seeded buffer (200 overlap characters, a 2-character blank-line
separator and a 900-character paragraph) is flushed whole. -/
theorem chunk_len_claim_cex :
    (∃ c ∈ chunkText 1000 200 ex1, 1000 < c.length) ∧
      ∀ s ∈ sentencesOf ex1, s.length ≤ 1000 := by decide

/-- Claim C1 (amended): with a positive `chunk_overlap`, every chunk emitted
by `TextChunker.chunk_text` has content of length at most
`chunk_size + chunk_overlap + 2` — the two extra characters being the
blank-line separator in an overlap-seeded buffer — except when a single
sentence of the input by itself is even longer; that is, every chunk is
bounded by the maximum of `chunk_size + chunk_overlap + 2` and the longest
sentence of the input. -/
theorem chunk_text_len_bound {α : Type} (cs ov : Nat) (hov : 1 ≤ ov) (text : Str) (m : α) :
    ∀ ch ∈ chunk_text cs ov text m,
      ch.content.length ≤ max (cs + ov + 2) (maxSentenceLen text) := by
  intro ch hch
  rcases List.mem_map.mp hch with ⟨c, hc, rfl⟩
  have hsent : ∀ p ∈ splitPara (pyStrip text),
      ∀ s ∈ splitNl (replDotSpace (pyStrip p)),
        (pyStrip s).length ≤ maxSentenceLen text := by
    intro p hp s hsn
    have h1 : pyStrip s ∈ sentencesOf text := by
      unfold sentencesOf
      simp only [List.mem_flatMap, List.mem_map]
      exact ⟨pyStrip p, ⟨p, hp, rfl⟩, s, hsn, rfl⟩
    exact le_foldr_max (List.mem_map_of_mem _ h1)
  unfold chunkText at hc
  dsimp only at hc
  split at hc
  · cases hc
  · exact chunkGo_bound cs ov _ hov _ [] hsent (Nat.zero_le _) c hc

/-- Witness for `chunk_text_len_bound` at a concrete input. -/
theorem chunk_text_len_bound_witness :
    ("ab".toList : Str).length ≤ max (1000 + 200 + 2) (maxSentenceLen "ab".toList) :=
  chunk_text_len_bound 1000 200 (by decide) "ab".toList () ⟨"ab".toList, ()⟩ (by decide)

/-! ### The overlap-seeded buffer (claim C8) -/

theorem pyTakeNeg_ne_nil {ov : Nat} {cur : Str} (h : ov < cur.length) :
    pyTakeNeg ov cur ≠ [] := by
  unfold pyTakeNeg takeLast
  split
  · intro h0
    rw [h0] at h
    simp at h
  · intro h0
    have := congrArg List.length h0
    simp at this
    omega

set_option maxRecDepth 100000 in
/-- Counterexample to claim C8 as stated: for input `ex1` the chunk that
follows a flush is the trailing 200 characters of the flushed buffer, then a
blank-line separator, then the new paragraph — it is not the overlap
directly followed by the paragraph, as the claim states. -/
theorem chunk_overlap_claim_cex :
    chunkText 1000 200 ex1 = [ex1A, pyTakeNeg 200 ex1A ++ nn ++ ex1B] ∧
      pyTakeNeg 200 ex1A ++ nn ++ ex1B ≠ pyTakeNeg 200 ex1A ++ ex1B := by decide

/-- Claim C8 (amended): in `TextChunker.chunk_text`, when appending the next
paragraph would exceed `chunk_size` and the paragraph itself does not, the
buffer is flushed as a chunk and the new buffer is seeded with the trailing
`chunk_overlap` characters of the flushed buffer, a blank-line separator,
and the new paragraph — when the flushed buffer is longer than
`chunk_overlap`; otherwise the new buffer is the paragraph alone, with no
overlap. -/
theorem chunk_overlap_seed (cs ov : Nat) (p : Str) (rest : List Str) (cur : Str)
    (h1 : pyStrip p ≠ []) (h2 : cs < cur.length + (pyStrip p).length)
    (h3 : (pyStrip p).length ≤ cs) (h4 : pyStrip cur ≠ []) :
    chunkGo cs ov (p :: rest) cur =
      pyStrip cur ::
        chunkGo cs ov rest
          (if ov < cur.length then pyTakeNeg ov cur ++ nn ++ pyStrip p
           else pyStrip p) := by
  simp only [chunkGo]
  rw [if_neg h1, if_pos h2, if_neg (by omega : ¬ cs < (pyStrip p).length), if_pos h4]
  by_cases hlong : ov < cur.length
  · rw [if_pos hlong, if_pos hlong, if_pos (pyTakeNeg_ne_nil hlong)]
    rfl
  · rw [if_neg hlong, if_neg hlong, if_neg (by simp)]
    rfl

/-- Witness for `chunk_overlap_seed` at a concrete input. -/
theorem chunk_overlap_seed_witness :
    chunkGo 5 2 [['d', 'd']] ['a', 'b', 'c', 'd'] =
      pyStrip ['a', 'b', 'c', 'd'] ::
        chunkGo 5 2 []
          (if 2 < (['a', 'b', 'c', 'd'] : Str).length then
            pyTakeNeg 2 ['a', 'b', 'c', 'd'] ++ nn ++ pyStrip ['d', 'd']
           else pyStrip ['d', 'd']) :=
  chunk_overlap_seed 5 2 ['d', 'd'] [] ['a', 'b', 'c', 'd']
    (by decide) (by decide) (by decide) (by decide)

/-! ### One-chunk behaviour on short inputs (claim C7) -/

theorem splitPara_ne_nil (t : Str) : splitPara t ≠ [] := by
  induction t using splitPara.induct with
  | case1 => simp [splitPara]
  | case2 rest ih => simp [splitPara]
  | case3 c rest hpat heq ih => exact absurd heq ih
  | case4 c rest hpat p ps heq ih => simp [splitPara, heq]

theorem joinPara_cons_cons (c : Char) (p : Str) (ps : List Str) :
    joinPara ((c :: p) :: ps) = c :: joinPara (p :: ps) := by
  cases ps <;> simp [joinPara]

theorem join_splitPara (t : Str) : joinPara (splitPara t) = t := by
  induction t using splitPara.induct with
  | case1 => rfl
  | case2 rest ih =>
    simp only [splitPara]
    obtain ⟨q, qs, hq⟩ := List.exists_cons_of_ne_nil (splitPara_ne_nil rest)
    rw [hq]
    rw [hq] at ih
    simp [joinPara, nn, ih]
  | case3 c rest hpat heq ih => exact absurd heq (splitPara_ne_nil rest)
  | case4 c rest hpat p ps heq ih =>
    simp only [splitPara, heq]
    rw [joinPara_cons_cons]
    rw [heq] at ih
    rw [ih]

theorem accum_len_mono : ∀ (ps : List Str) (cur : Str),
    cur.length ≤ (accumParas ps cur).length := by
  intro ps
  induction ps with
  | nil => intro cur; simp [accumParas]
  | cons p rest ih =>
    intro cur
    simp only [accumParas]
    refine le_trans ?_ (ih _)
    split
    · exact le_refl _
    · split
      · rename_i hcur
        simp [hcur]
      · simp only [List.length_append]
        omega

/-- When the whole accumulated buffer fits within `chunk_size`, the main
loop of `chunk_text` never flushes: it emits exactly the final buffer (or
nothing when the buffer strips to empty). -/
theorem chunkGo_noflush (cs ov : Nat) (paras : List Str) :
    ∀ cur, (accumParas paras cur).length ≤ cs →
      chunkGo cs ov paras cur =
        if pyStrip (accumParas paras cur) ≠ [] then
          [pyStrip (accumParas paras cur)]
        else [] := by
  induction paras with
  | nil => intro cur h; rfl
  | cons p rest ih =>
    intro cur h
    have hacc : accumParas (p :: rest) cur
        = accumParas rest
            (if pyStrip p = [] then cur
             else if cur = [] then pyStrip p else cur ++ nn ++ pyStrip p) := rfl
    by_cases hp : pyStrip p = []
    · simp only [chunkGo]
      rw [if_pos hp, hacc, if_pos hp]
      exact ih cur (by rw [hacc, if_pos hp] at h; exact h)
    · have hseed : accumParas (p :: rest) cur
          = accumParas rest (if cur = [] then pyStrip p else cur ++ nn ++ pyStrip p) := by
        rw [hacc, if_neg hp]
      have hnotflush : ¬ cs < cur.length + (pyStrip p).length := by
        intro hlt
        have hseedlen : cur.length + (pyStrip p).length
            ≤ (if cur = [] then pyStrip p else cur ++ nn ++ pyStrip p).length := by
          split
          · rename_i hcur
            simp [hcur]
          · simp only [List.length_append, nn, List.length_cons, List.length_nil]
            omega
        have hle := le_trans hseedlen (accum_len_mono rest _)
        rw [← hseed] at hle
        omega
      simp only [chunkGo]
      rw [if_neg hp, if_neg hnotflush, hseed]
      exact ih _ (by rw [hseed] at h; exact h)

theorem mem_dropWhile_of_not {c : Char} {s : Str} (hc : c ∈ s)
    (hns : pyIsSpace c = false) : c ∈ s.dropWhile pyIsSpace := by
  have hsplit := List.takeWhile_append_dropWhile (p := pyIsSpace) (l := s)
  rw [← hsplit] at hc
  rcases List.mem_append.mp hc with h1 | h2
  · have := List.mem_takeWhile_imp h1
    simp [hns] at this
  · exact h2

theorem mem_pyStrip {c : Char} {s : Str} (hc : c ∈ s) (hns : pyIsSpace c = false) :
    c ∈ pyStrip s := by
  unfold pyStrip
  rw [List.mem_reverse]
  apply mem_dropWhile_of_not _ hns
  rw [List.mem_reverse]
  exact mem_dropWhile_of_not hc hns

theorem pyStrip_ne_nil_of_nonspace {s : Str} (h : ∃ c ∈ s, pyIsSpace c = false) :
    pyStrip s ≠ [] := by
  obtain ⟨c, hc, hns⟩ := h
  exact List.ne_nil_of_mem (mem_pyStrip hc hns)

theorem dropWhile_first_false (p : Char → Bool) :
    ∀ l : Str, l.dropWhile p ≠ [] → ∃ c ∈ l.dropWhile p, p c = false := by
  intro l
  induction l with
  | nil => simp
  | cons a l ih =>
    by_cases h : p a
    · simp only [List.dropWhile_cons, h, if_true]
      exact ih
    · intro _
      refine ⟨a, ?_, by simp [h]⟩
      simp [List.dropWhile_cons, h]

theorem pyStrip_has_nonspace {s : Str} (h : pyStrip s ≠ []) :
    ∃ c ∈ pyStrip s, pyIsSpace c = false := by
  have h2 : (s.dropWhile pyIsSpace).reverse.dropWhile pyIsSpace ≠ [] := by
    intro h0
    apply h
    unfold pyStrip
    rw [h0]
    rfl
  obtain ⟨c, hc, hcf⟩ := dropWhile_first_false _ _ h2
  refine ⟨c, ?_, hcf⟩
  unfold pyStrip
  rw [List.mem_reverse]
  exact hc

theorem mem_joinPara {c : Char} :
    ∀ ps : List Str, c ∈ joinPara ps → (∃ p ∈ ps, c ∈ p) ∨ c = '\n' := by
  intro ps
  induction ps with
  | nil => intro h; cases h
  | cons p rest ih =>
    cases rest with
    | nil =>
      intro h
      exact Or.inl ⟨p, List.mem_cons_self _ _, h⟩
    | cons q qs =>
      intro h
      simp only [joinPara] at h
      rcases List.mem_append.mp h with h1 | h2
      · rcases List.mem_append.mp h1 with h3 | h4
        · exact Or.inl ⟨p, List.mem_cons_self _ _, h3⟩
        · right
          simp [nn] at h4
          exact h4
      · rcases ih h2 with ⟨r, hr, hcr⟩ | hnl
        · exact Or.inl ⟨r, List.mem_cons_of_mem _ hr, hcr⟩
        · exact Or.inr hnl

theorem accum_has_nonspace :
    ∀ (ps : List Str) (cur : Str),
      ((∃ p ∈ ps, ∃ c ∈ pyStrip p, pyIsSpace c = false) ∨
        (∃ c ∈ cur, pyIsSpace c = false)) →
      ∃ c ∈ accumParas ps cur, pyIsSpace c = false := by
  intro ps
  induction ps with
  | nil =>
    intro cur h
    rcases h with ⟨p, hp, _⟩ | h
    · cases hp
    · exact h
  | cons p rest ih =>
    intro cur h
    simp only [accumParas]
    apply ih
    rcases h with ⟨q, hq, hcq⟩ | ⟨c, hc, hcf⟩
    · rcases List.mem_cons.mp hq with rfl | hq'
      · right
        obtain ⟨c, hcp, hcf⟩ := hcq
        refine ⟨c, ?_, hcf⟩
        have hpne : pyStrip q ≠ [] := List.ne_nil_of_mem hcp
        rw [if_neg hpne]
        split
        · exact hcp
        · exact List.mem_append.mpr (Or.inr hcp)
      · exact Or.inl ⟨q, hq', hcq⟩
    · right
      refine ⟨c, ?_, hcf⟩
      split
      · exact hc
      · split
        · rename_i hcur
          rw [hcur] at hc
          cases hc
        · exact List.mem_append.mpr (Or.inl (List.mem_append.mpr (Or.inl hc)))

theorem join_tail_le (p : Str) (ps : List Str) :
    (joinPara ps).length ≤ (joinPara (p :: ps)).length := by
  cases ps with
  | nil => simp [joinPara]
  | cons q qs =>
    simp only [joinPara, List.length_append, nn, List.length_cons, List.length_nil]
    omega

theorem join_head_mono {x y : Str} (h : x.length ≤ y.length) (ps : List Str) :
    (joinPara (x :: ps)).length ≤ (joinPara (y :: ps)).length := by
  cases ps with
  | nil => simpa [joinPara] using h
  | cons q qs =>
    simp only [joinPara, List.length_append, nn, List.length_cons, List.length_nil]
    omega

theorem accum_le_join : ∀ (ps : List Str) (cur : Str),
    (accumParas ps cur).length ≤ (joinPara (cur :: ps)).length := by
  intro ps
  induction ps with
  | nil => intro cur; simp [accumParas, joinPara]
  | cons p rest ih =>
    intro cur
    simp only [accumParas]
    refine le_trans (ih _) ?_
    have hps := pyStrip_length_le p
    split
    · cases rest with
      | nil =>
        simp only [joinPara, List.length_append, nn, List.length_cons, List.length_nil]
        omega
      | cons q qs =>
        simp only [joinPara, List.length_append, nn, List.length_cons, List.length_nil]
        omega
    · split
      · rename_i hp hcur
        rw [hcur]
        cases rest with
        | nil =>
          simp only [joinPara, List.length_append, nn, List.length_cons, List.length_nil]
          omega
        | cons q qs =>
          simp only [joinPara, List.length_append, nn, List.length_cons, List.length_nil]
          omega
      · cases rest with
        | nil =>
          simp only [joinPara, List.length_append, nn, List.length_cons, List.length_nil]
          omega
        | cons q qs =>
          simp only [joinPara, List.length_append, nn, List.length_cons, List.length_nil]
          omega

theorem accum_nil_le_join : ∀ ps : List Str,
    (accumParas ps []).length ≤ (joinPara ps).length := by
  intro ps
  induction ps with
  | nil => simp [accumParas, joinPara]
  | cons p rest ih =>
    simp only [accumParas]
    split
    · exact le_trans ih (join_tail_le p rest)
    · simp only [if_true]
      exact le_trans (accum_le_join rest (pyStrip p))
        (join_head_mono (pyStrip_length_le p) rest)

/-- The contents emitted by `chunk_text` on a short non-whitespace input:
a single chunk, the stripped-paragraph join. -/
theorem chunkText_short (cs ov : Nat) (input : Str)
    (h1 : pyStrip input ≠ []) (h2 : input.length < cs) :
    chunkText cs ov input = [pyStrip (accumParas (splitPara (pyStrip input)) [])] := by
  have hlen : (accumParas (splitPara (pyStrip input)) []).length ≤ cs := by
    have ha := accum_nil_le_join (splitPara (pyStrip input))
    rw [join_splitPara] at ha
    have hb := pyStrip_length_le input
    omega
  have hne : pyStrip (accumParas (splitPara (pyStrip input)) []) ≠ [] := by
    apply pyStrip_ne_nil_of_nonspace
    apply accum_has_nonspace
    obtain ⟨c, hct, hcf⟩ := pyStrip_has_nonspace h1
    have hct' : c ∈ joinPara (splitPara (pyStrip input)) := by
      rw [join_splitPara]
      exact hct
    rcases mem_joinPara _ hct' with ⟨p, hp, hcp⟩ | rfl
    · exact Or.inl ⟨p, hp, c, mem_pyStrip hcp hcf, hcf⟩
    · simp [pyIsSpace] at hcf
  unfold chunkText
  dsimp only
  rw [if_neg h1, chunkGo_noflush cs ov _ [] hlen, if_pos hne]

/-- Counterexample to claim C7 as stated: `ex7` is shorter than the chunk
size and not whitespace-only, yet the single emitted chunk differs from the
trimmed input, because each paragraph is trimmed individually before the
paragraphs are rejoined. -/
theorem chunk_short_claim_cex :
    pyStrip ex7 ≠ [] ∧ ex7.length < 1000 ∧
      chunkText 1000 200 ex7 ≠ [pyStrip ex7] := by decide

/-- Claim C7 (amended): for every non-whitespace string shorter than
`chunk_size`, `TextChunker.chunk_text` yields exactly one chunk; its content
is the trimmed input with each blank-line-separated paragraph trimmed and
empty paragraphs dropped, rejoined with a blank line — which equals the
trimmed input exactly when no paragraph carries its own surrounding
whitespace. -/
theorem chunk_text_short {α : Type} (cs ov : Nat) (input : Str) (m : α)
    (h1 : pyStrip input ≠ []) (h2 : input.length < cs) :
    chunk_text cs ov input m =
      [⟨pyStrip (accumParas (splitPara (pyStrip input)) []), m⟩] := by
  unfold chunk_text
  rw [chunkText_short cs ov input h1 h2]
  rfl

/-- Witness for `chunk_text_short` at a concrete input. -/
theorem chunk_text_short_witness :
    chunk_text 1000 200 "hi there".toList () =
      [⟨pyStrip (accumParas (splitPara (pyStrip "hi there".toList)) []), ()⟩] :=
  chunk_text_short 1000 200 "hi there".toList () (by decide) (by decide)

/-! ### Crawler scoping and termination (claims C4 and C5) -/

/-- A fold over links preserves any invariant of the visited set that each
step preserves. -/
theorem crawl_foldl_inv (step : List CrawledPage × List Str → Str → List CrawledPage × List Str)
    (P : List Str → Prop) (hstep : ∀ acc l, P acc.2 → P (step acc l).2) :
    ∀ (links : List Str) (acc : List CrawledPage × List Str),
      P acc.2 → P ((links.foldl step acc)).2 := by
  intro links
  induction links with
  | nil => intro acc h; exact h
  | cons l ls ih => intro acc h; exact ih _ (hstep acc l h)

/-- Claim C4: a crawl run adds each normalized URL to the visited set at
most once (the visited set stays duplicate-free), the visited set never
grows beyond `max_pages`, and the crawl terminates (`crawlRec` is a total
function of its depth fuel); concretely, with `max_pages = 3` over a site
graph of ten reachable in-scope pages, exactly 3 URLs are visited. -/
theorem crawl_visited_props :
    (∀ (site : Str → Option SitePage) (mp : Nat) (bd bp : Str) (fuel : Nat) (url : Str)
        (vis : List Str), vis.Nodup → vis.length ≤ mp →
      ((crawlRec site mp bd bp fuel url vis).2.Nodup ∧
        (crawlRec site mp bd bp fuel url vis).2.length ≤ mp))
    ∧ (crawl exSite 3 5 exBase).2.length = 3 := by
  constructor
  · intro site mp bd bp fuel
    induction fuel with
    | zero => intro url vis h1 h2; exact ⟨h1, h2⟩
    | succ f ih =>
      intro url vis h1 h2
      simp only [crawlRec]
      split
      · exact ⟨h1, h2⟩
      · rename_i hlt
        split
        · exact ⟨h1, h2⟩
        · split
          · exact ⟨h1, h2⟩
          · rename_i hmem hvalid
            have h1' : (rstripChar '/' (url.takeWhile (· ≠ '#')) :: vis).Nodup :=
              List.nodup_cons.mpr ⟨hmem, h1⟩
            have h2' : (rstripChar '/' (url.takeWhile (· ≠ '#')) :: vis).length ≤ mp := by
              simp only [List.length_cons]
              omega
            split
            · exact ⟨h1', h2'⟩
            · split
              · exact ⟨h1', h2'⟩
              · have hfold := crawl_foldl_inv
                  (fun acc link =>
                    let r2 := crawlRec site mp bd bp f link acc.2
                    (acc.1 ++ r2.1, r2.2))
                  (fun v => v.Nodup ∧ v.length ≤ mp)
                  (fun acc l hP => ih l acc.2 hP.1 hP.2)
                exact hfold _ _ ⟨h1', h2'⟩
  · decide

/-- Witness for the universally quantified part of `crawl_visited_props`
at a concrete crawl. -/
theorem crawl_visited_props_witness :
    (crawlRec exSite 3 (crawlerBaseDomain exBase) (crawlerBasePrefix exBase)
        6 exBase []).2.Nodup ∧
      (crawlRec exSite 3 (crawlerBaseDomain exBase) (crawlerBasePrefix exBase)
        6 exBase []).2.length ≤ 3 :=
  crawl_visited_props.1 exSite 3 (crawlerBaseDomain exBase) (crawlerBasePrefix exBase)
    6 exBase [] List.nodup_nil (by decide)

/-- Claim C5: `DocsCrawler._is_valid_url` accepts a candidate URL exactly
when its network host equals the base URL's host, its path (trailing
slashes stripped, the empty path read as the root path, as the code
normalizes both sides) starts with the base URL's path prefix, and it does
not end with a blocked asset extension; concretely, with base
`https://ex.com/docs`, `https://ex.com/docs/a` is accepted while
`https://ex.com/blog`, `https://other.com/docs` and
`https://ex.com/docs/file.pdf` are rejected. -/
theorem is_valid_url_spec :
    (∀ baseUrl url : Str,
      isValidUrl (crawlerBaseDomain baseUrl) (crawlerBasePrefix baseUrl) url = true ↔
        ((urlparse url).netloc = crawlerBaseDomain baseUrl ∧
          strStartsWith (crawlerBasePrefix baseUrl) (normPath (urlparse url).path) = true ∧
          skipExtensions.any
            (fun e => strEndsWith e ((normPath (urlparse url).path).map Char.toLower)) = false))
    ∧ isValidUrl (crawlerBaseDomain "https://ex.com/docs".toList)
        (crawlerBasePrefix "https://ex.com/docs".toList) "https://ex.com/docs/a".toList = true
    ∧ isValidUrl (crawlerBaseDomain "https://ex.com/docs".toList)
        (crawlerBasePrefix "https://ex.com/docs".toList) "https://ex.com/blog".toList = false
    ∧ isValidUrl (crawlerBaseDomain "https://ex.com/docs".toList)
        (crawlerBasePrefix "https://ex.com/docs".toList) "https://other.com/docs".toList = false
    ∧ isValidUrl (crawlerBaseDomain "https://ex.com/docs".toList)
        (crawlerBasePrefix "https://ex.com/docs".toList) "https://ex.com/docs/file.pdf".toList
        = false := by
  refine ⟨?_, by decide, by decide, by decide, by decide⟩
  intro baseUrl url
  unfold isValidUrl
  dsimp only
  split
  · rename_i hne
    simp only [Bool.false_eq_true, false_iff]
    intro ⟨h1, _, _⟩
    exact hne h1
  · rename_i heq
    rw [not_ne_iff] at heq
    split
    · rename_i hpre
      simp only [Bool.false_eq_true, false_iff]
      intro ⟨_, h2, _⟩
      exact hpre h2
    · rename_i hpre
      rw [not_not] at hpre
      split
      · rename_i hext
        simp only [Bool.false_eq_true, false_iff]
        intro ⟨_, _, h3⟩
        rw [h3] at hext
        cases hext
      · rename_i hext
        simp only [true_iff]
        exact ⟨heq, hpre, by simpa using hext⟩

/-! ### Query pipeline on an empty or failing index (claims C9 and C10) -/

/-- Claim C9: when the channel's similarity-index partition holds zero
documents, `answer_question` returns the fixed "not yet indexed" answer at
confidence `low` with no sources, and neither the query-embedding operation
nor the answer-generation capability is invoked (whatever those capabilities
would do). -/
theorem answer_question_empty_index (o : QueryOracle) (q : Str) (h : o.count = 0) :
    answer_question o q =
        (Except.ok ⟨notIndexedMsg, [], "low".toList⟩, [PipeEvent.countCall]) ∧
      PipeEvent.embedQueryCall ∉ (answer_question o q).2 ∧
      PipeEvent.generateCall ∉ (answer_question o q).2 := by
  have h1 : answer_question o q =
      (Except.ok ⟨notIndexedMsg, [], "low".toList⟩, [PipeEvent.countCall]) := by
    unfold answer_question
    rw [if_pos h]
  refine ⟨h1, ?_, ?_⟩ <;> rw [h1] <;> decide

/-- Witness for `answer_question_empty_index` at a concrete oracle. -/
theorem answer_question_empty_index_witness :
    answer_question exOracleEmpty "q".toList =
        (Except.ok ⟨notIndexedMsg, [], "low".toList⟩, [PipeEvent.countCall]) ∧
      PipeEvent.embedQueryCall ∉ (answer_question exOracleEmpty "q".toList).2 ∧
      PipeEvent.generateCall ∉ (answer_question exOracleEmpty "q".toList).2 :=
  answer_question_empty_index exOracleEmpty "q".toList rfl

/-- Claim C10: against a non-empty channel index, when the underlying
similarity-index query raises, `VectorStore.query` swallows the exception
and returns an empty list, and `answer_question` returns the fixed
"couldn't find relevant information" answer at confidence `low` with no
sources — an `ok` outcome, not a propagated error. -/
theorem answer_question_query_error (o : QueryOracle) (q : Str) (h1 : o.count ≠ 0)
    (h2 : o.storeQuery (o.embedQuery q) = none) :
    vectorStoreQuery (o.storeQuery (o.embedQuery q)) = [] ∧
      answer_question o q =
        (Except.ok ⟨noResultsMsg, [], "low".toList⟩,
          [PipeEvent.countCall, PipeEvent.embedQueryCall, PipeEvent.storeQueryCall]) := by
  have hv : vectorStoreQuery (o.storeQuery (o.embedQuery q)) = [] := by
    rw [h2]
    rfl
  refine ⟨hv, ?_⟩
  unfold answer_question
  rw [if_neg h1]
  dsimp only
  rw [hv, if_pos rfl]

/-- Witness for `answer_question_query_error` at a concrete oracle. -/
theorem answer_question_query_error_witness :
    vectorStoreQuery (exOracleErr.storeQuery (exOracleErr.embedQuery "q".toList)) = [] ∧
      answer_question exOracleErr "q".toList =
        (Except.ok ⟨noResultsMsg, [], "low".toList⟩,
          [PipeEvent.countCall, PipeEvent.embedQueryCall, PipeEvent.storeQueryCall]) :=
  answer_question_query_error exOracleErr "q".toList (by decide) rfl

/-! ### Repository fetch bounds (claim C6) -/

theorem processFile_count (e : RepoEntry) (ftype : Str) (count : Nat) :
    (processFile e ftype count).2 = count + (processFile e ftype count).1.length ∧
      (processFile e ftype count).1.length ≤ 1 := by
  unfold processFile
  split
  · simp
  · split
    · simp
    · split <;> simp

/-- A fold whose every step preserves the count/yield accounting and the
budget preserves both. -/
theorem foldl_count_inv {γ : Type} (step : List GitHubFile × Nat → γ → List GitHubFile × Nat)
    (mf base : Nat)
    (hstep : ∀ (acc : List GitHubFile × Nat) (x : γ),
      acc.2 = base + acc.1.length → acc.2 ≤ mf →
      ((step acc x).2 = base + (step acc x).1.length ∧ (step acc x).2 ≤ mf)) :
    ∀ (l : List γ) (acc : List GitHubFile × Nat),
      acc.2 = base + acc.1.length → acc.2 ≤ mf →
      ((l.foldl step acc).2 = base + (l.foldl step acc).1.length ∧
        (l.foldl step acc).2 ≤ mf) := by
  intro l
  induction l with
  | nil => intro acc h1 h2; exact ⟨h1, h2⟩
  | cons x xs ih =>
    intro acc h1 h2
    obtain ⟨h1', h2'⟩ := hstep acc x h1 h2
    exact ih _ h1' h2'

theorem fetchDir_spec (repo : RepoOracle) (mf : Nat) :
    ∀ (fuel : Nat) (path ftype : Str) (count : Nat), count ≤ mf →
      ((fetchDir repo mf fuel path ftype count).2
          = count + (fetchDir repo mf fuel path ftype count).1.length ∧
        (fetchDir repo mf fuel path ftype count).2 ≤ mf) := by
  intro fuel
  induction fuel with
  | zero => intro path ftype count h; exact ⟨by simp [fetchDir], by simpa [fetchDir] using h⟩
  | succ f ih =>
    intro path ftype count h
    simp only [fetchDir]
    split
    · exact ⟨by simp, h⟩
    · split
      · exact ⟨by simp, h⟩
      · apply foldl_count_inv _ mf count ?_ _ ([], count) (by simp) h
        intro acc item h1 h2
        split
        · exact ⟨h1, h2⟩
        · rename_i hbudget
          split
          · obtain ⟨ha, hb⟩ := ih item.path ftype acc.2 h2
            refine ⟨?_, hb⟩
            simp only [List.length_append]
            omega
          · split
            · obtain ⟨ha, hb⟩ := processFile_count item ftype acc.2
              refine ⟨?_, ?_⟩
              · simp only [List.length_append]
                omega
              · omega
            · exact ⟨h1, h2⟩

/-- Claim C6: over every repository tree, `GitHubFetcher.fetch` yields at
most `max_files` files in total across the priority-file, operator-directory
and documentation-directory phases; and `_process_file`, the only yield
site, yields nothing for an entry whose reported size exceeds 500000
bytes. -/
theorem github_fetch_bounds :
    (∀ (repo : RepoOracle) (mf : Nat) (ok : Bool), (ghFetch repo mf ok).1.length ≤ mf)
    ∧ (∀ (e : RepoEntry) (ftype : Str) (count : Nat), 500000 < e.size →
        processFile e ftype count = ([], count)) := by
  constructor
  · intro repo mf ok
    unfold ghFetch
    split
    · simp
    · dsimp only
      have hdirstep : ∀ ft : Str → Str, ∀ (acc : List GitHubFile × Nat) (dir : Str),
          acc.2 = 0 + acc.1.length → acc.2 ≤ mf →
          (((if mf ≤ acc.2 then acc
            else
              (acc.1 ++ (fetchDir repo mf 5 dir (ft dir) acc.2).1,
                (fetchDir repo mf 5 dir (ft dir) acc.2).2))).2
              = 0 + (if mf ≤ acc.2 then acc
                else
                  (acc.1 ++ (fetchDir repo mf 5 dir (ft dir) acc.2).1,
                    (fetchDir repo mf 5 dir (ft dir) acc.2).2)).1.length ∧
            (if mf ≤ acc.2 then acc
              else
                (acc.1 ++ (fetchDir repo mf 5 dir (ft dir) acc.2).1,
                  (fetchDir repo mf 5 dir (ft dir) acc.2).2)).2 ≤ mf) := by
        intro ft acc dir h1 h2
        split
        · exact ⟨h1, h2⟩
        · obtain ⟨ha, hb⟩ := fetchDir_spec repo mf 5 dir (ft dir) acc.2 h2
          refine ⟨?_, by simpa using hb⟩
          simp only [List.length_append]
          omega
      have h1 : ((PRIORITY_FILES.foldl
          (fun acc fp =>
            if mf ≤ acc.2 then acc
            else match repo fp with
              | none => acc
              | some (Sum.inr _) => acc
              | some (Sum.inl e) =>
                (acc.1 ++ (processFile e "readme".toList acc.2).1,
                  (processFile e "readme".toList acc.2).2))
          ([], 0))).2
            = 0 + ((PRIORITY_FILES.foldl
          (fun acc fp =>
            if mf ≤ acc.2 then acc
            else match repo fp with
              | none => acc
              | some (Sum.inr _) => acc
              | some (Sum.inl e) =>
                (acc.1 ++ (processFile e "readme".toList acc.2).1,
                  (processFile e "readme".toList acc.2).2))
          ([], 0))).1.length ∧ ((PRIORITY_FILES.foldl
          (fun acc fp =>
            if mf ≤ acc.2 then acc
            else match repo fp with
              | none => acc
              | some (Sum.inr _) => acc
              | some (Sum.inl e) =>
                (acc.1 ++ (processFile e "readme".toList acc.2).1,
                  (processFile e "readme".toList acc.2).2))
          ([], 0))).2 ≤ mf := by
        apply foldl_count_inv _ mf 0 ?_ _ ([], 0) (by simp) (by simp)
        intro acc fp ha hb
        split
        · exact ⟨ha, hb⟩
        · rename_i hbudget
          split
          · exact ⟨ha, hb⟩
          · exact ⟨ha, hb⟩
          · rename_i e heq
            obtain ⟨hc, hd⟩ := processFile_count e "readme".toList acc.2
            dsimp only
            refine ⟨?_, ?_⟩
            · simp only [List.length_append]
              omega
            · omega
      have h2 := foldl_count_inv _ mf 0 (hdirstep getFileType) OPERATOR_DIRS _ h1.1 h1.2
      have h3 := foldl_count_inv _ mf 0 (hdirstep (fun _ => "docs".toList)) DOC_DIRS _ h2.1 h2.2
      omega
  · intro e ftype count h
    unfold processFile
    rw [if_pos h]

/-- Witness for `github_fetch_bounds` at a concrete repository (the empty
oracle) and the oversized entry `bigEntry`. -/
theorem github_fetch_bounds_witness :
    (ghFetch (fun _ => none) 100 true).1.length ≤ 100 ∧
      processFile bigEntry "docs".toList 0 = ([], 0) :=
  ⟨github_fetch_bounds.1 (fun _ => none) 100 true,
    github_fetch_bounds.2 bigEntry "docs".toList 0 (by decide)⟩

/-! ### Per-source terminal status and the mixed run (claims C2 and C3) -/

/-- Counterexample to claim C2 as stated: the work raises, and the commit
that records the failure also raises; the rollback leaves the source at its
last committed status, `INDEXING`, when the run finishes. -/
theorem indexing_terminal_claim_cex :
    (processSource 0 ⟨none, some "boom".toList, none, none, some "db down".toList⟩
      pendingRec).status = SourceStatus.indexing := by decide

theorem source_terminal_status (now : Nat) (r : SourceRun) (rec0 : SourceRec)
    (h1 : r.refresh = none) (h2 : r.commitFailed = none) :
    (processSource now r rec0).status = SourceStatus.indexed ∨
      (processSource now r rec0).status = SourceStatus.failed := by
  obtain ⟨ci, w, cid, rf, cf⟩ := r
  dsimp only at h1 h2
  subst h1
  subst h2
  cases ci <;> cases w <;> cases cid <;> simp [processSource, recordFailure]

/-- Claim C2 (amended): in every run of `_index_channel_sources`, every
source ends the run with committed status `Indexed` or `Failed`, provided
the failure-recording refresh and commit themselves do not raise; when
recording a failure itself raises, the run rolls back and gives up on that
source, leaving it at its last committed status — which can be
`Indexing`. -/
theorem run_terminal_status (now : Nat) (sc : Option Str) (runs : List SourceRun)
    (h : ∀ r ∈ runs, r.refresh = none ∧ r.commitFailed = none) :
    ∀ rec ∈ (indexChannelRun now sc runs).1,
      rec.status = SourceStatus.indexed ∨ rec.status = SourceStatus.failed := by
  intro rec hrec
  unfold indexChannelRun at hrec
  dsimp only at hrec
  rcases List.mem_map.mp hrec with ⟨r, hr, rfl⟩
  exact source_terminal_status now r pendingRec (h r hr).1 (h r hr).2

/-- Witness for `run_terminal_status` at a concrete all-success run. -/
theorem run_terminal_status_witness :
    (⟨SourceStatus.indexed, none, some 0⟩ : SourceRec).status = SourceStatus.indexed ∨
      (⟨SourceStatus.indexed, none, some 0⟩ : SourceRec).status = SourceStatus.failed :=
  run_terminal_status 0 (some "C".toList) [okRun] (by decide)
    ⟨SourceStatus.indexed, none, some 0⟩ (by decide)

/-- Claim C3: for a channel with two pending sources where the first
source's fetch raises (with any message) and the second succeeds, the run
leaves the first source `Failed` with an error message of at most 500
characters, the second `Indexed` with its timestamp set, and emits exactly
one notification — the mixed phrasing with indexed count 1 and failed
count 1. -/
theorem mixed_run_outcome (emsg : Str) (now : Nat) (ch : Str) :
    indexChannelRun now (some ch)
        [⟨none, some emsg, none, none, none⟩, okRun]
      = ([⟨SourceStatus.failed, some (emsg.take 500), none⟩,
          ⟨SourceStatus.indexed, none, some now⟩],
         [Notification.mixedDone ch 1 1])
    ∧ (emsg.take 500).length ≤ 500 := by
  constructor
  · rfl
  · simp [List.length_take]

end ForumReplier
